import Mathlib

/-!
Verification of the `aws-mlflow-sagemaker-cdk` repository: a CDK stack declaring
a SageMaker notebook instance (`src/cdk/singleAccount/lib/sagemaker-notebook-instance.ts`)
together with the notebook workflow embedded in the same source file
(dataset preparation, training, hyperparameter search, MLflow run selection,
model registration, endpoint deployment and teardown).

The workflow delegates most behaviour to external SDKs (scikit-learn, the
MLflow client and the SageMaker SDK).  Those external operations are modelled
here from the specification's contracts; each such definition carries a doc
comment starting with `Modelled from the spec:`.  Everything that is literal in
the repository's source (the CDK stack wiring, the metric regular expression,
the hyperparameter values, the configured caps and names) is embedded directly.
-/

namespace MlflowSagemaker

/-! ### Dataset preparation

The notebook cell
`X_train, X_test, y_train, y_test = train_test_split(data.data, data.target, test_size=0.25, random_state=42)`
partitions the California-housing rows deterministically with seed 42 and
test ratio 0.25. -/

/-- Linear congruential pseudo-random step.
Modelled from the spec: `sklearn.model_selection.train_test_split` is external
to this repository; the spec only requires that the shuffle driving the split
be a deterministic function of the fixed seed (`random_state=42`). -/
def lcg (s : Nat) : Nat := (1103515245 * s + 12345) % 2147483648

/-- Seed-driven shuffle with explicit fuel (the fuel is the list length, so the
recursion is structural and the function evaluates by reduction). -/
def shuffleAux [DecidableEq α] : Nat → Nat → List α → List α
  | 0, _, _ => []
  | _ + 1, _, [] => []
  | fuel + 1, seed, a :: l =>
      let x := (a :: l).get ⟨seed % (a :: l).length, Nat.mod_lt _ (by simp)⟩
      x :: shuffleAux fuel (lcg seed) ((a :: l).erase x)

/-- Deterministic shuffle of a dataset keyed on the random seed.
Modelled from the spec: stands in for the seed-driven shuffling performed
internally by `train_test_split`. -/
def shuffle [DecidableEq α] (seed : Nat) (l : List α) : List α :=
  shuffleAux l.length seed l

/-- Modelled from the spec: `train_test_split(..., test_size=0.25, random_state=...)`.
Shuffles the rows deterministically from the seed and splits them at the fixed
ratio 0.25, the test partition receiving `⌈0.25 * n⌉` rows (scikit-learn's
rounding) and the train partition the rest.  Returns `(train, test)`. -/
def train_test_split [DecidableEq α] (rows : List α) (randomState : Nat) :
    List α × List α :=
  let shuffled := shuffle randomState rows
  let nTest := (rows.length + 3) / 4
  (shuffled.drop nTest, shuffled.take nTest)

theorem shuffleAux_perm [DecidableEq α] :
    ∀ (fuel seed : Nat) (l : List α), l.length ≤ fuel →
      (shuffleAux fuel seed l).Perm l := by
  intro fuel
  induction fuel with
  | zero =>
      intro seed l hl
      have : l = [] := List.eq_nil_of_length_eq_zero (Nat.le_zero.mp hl)
      subst this
      simp [shuffleAux]
  | succ n ih =>
      intro seed l hl
      cases l with
      | nil => simp [shuffleAux]
      | cons a t =>
          set x := (a :: t).get ⟨seed % (a :: t).length, Nat.mod_lt _ (by simp)⟩
            with hx
          have hmem : x ∈ a :: t := by rw [hx]; exact List.get_mem _ _ _
          have herase : ((a :: t).erase x).length ≤ n := by
            have h1 := List.length_erase_of_mem hmem
            have h2 : (a :: t).length ≤ n + 1 := hl
            omega
          have ihp := ih (lcg seed) ((a :: t).erase x) herase
          have hperm : List.Perm (x :: (a :: t).erase x) (a :: t) :=
            (List.perm_cons_erase hmem).symm
          have hstep : shuffleAux (n + 1) seed (a :: t)
              = x :: shuffleAux n (lcg seed) ((a :: t).erase x) := rfl
          rw [hstep]
          exact (ihp.cons x).trans hperm

theorem shuffle_perm [DecidableEq α] (seed : Nat) (l : List α) :
    (shuffle seed l).Perm l :=
  shuffleAux_perm l.length seed l (Nat.le_refl _)

/-- C1: for every dataset and the fixed seed 42 and test ratio 0.25, the
train/test split covers the source dataset exactly (as a permutation), the two
partitions are disjoint whenever the source rows are distinct, the test
partition has `⌈n/4⌉` rows so that `|test| / (|train| + |test|)` is 0.25 up to
rounding (`n ≤ 4·|test| < n + 4`), and repeated runs with the same seed produce
the identical split. -/
theorem train_test_split_spec [DecidableEq α] (rows : List α)
    (hnd : rows.Nodup) :
    ((train_test_split rows 42).1 ++ (train_test_split rows 42).2).Perm rows ∧
    (train_test_split rows 42).1.Disjoint (train_test_split rows 42).2 ∧
    (train_test_split rows 42).2.length = (rows.length + 3) / 4 ∧
    (train_test_split rows 42).1.length + (train_test_split rows 42).2.length
      = rows.length ∧
    rows.length ≤ 4 * (train_test_split rows 42).2.length ∧
    4 * (train_test_split rows 42).2.length < rows.length + 4 ∧
    train_test_split rows 42 = train_test_split rows 42 := by
  have hsh : (shuffle 42 rows).Perm rows := shuffle_perm 42 rows
  have hlen : (shuffle 42 rows).length = rows.length := hsh.length_eq
  set k := (rows.length + 3) / 4 with hk
  have hsplit : (train_test_split rows 42).1 = (shuffle 42 rows).drop k ∧
      (train_test_split rows 42).2 = (shuffle 42 rows).take k := by
    constructor <;> rfl
  have hcover :
      ((train_test_split rows 42).1 ++ (train_test_split rows 42).2).Perm rows := by
    rw [hsplit.1, hsplit.2]
    refine (List.perm_append_comm.trans ?_).trans hsh
    rw [List.take_append_drop]
  have hkn : k ≤ rows.length := by
    rw [hk]; omega
  have htake : (train_test_split rows 42).2.length = k := by
    rw [hsplit.2, List.length_take, hlen]
    omega
  refine ⟨hcover, ?_, htake, ?_, ?_, ?_, rfl⟩
  · -- disjointness, from Nodup of the covering permutation
    have hnodup : ((train_test_split rows 42).1 ++ (train_test_split rows 42).2).Nodup :=
      hcover.symm.nodup hnd
    exact (List.nodup_append.mp hnodup).2.2
  · rw [hsplit.1, htake, List.length_drop, hlen]
    omega
  · rw [htake, hk]; omega
  · rw [htake, hk]; omega

/-- Witness for C1 at the spec's example scenario: 100 distinct rows split
with seed 42 give 75 train rows and 25 test rows, disjoint and exhaustive. -/
theorem train_test_split_spec_witness :
    (List.range 100).Nodup ∧
    (((train_test_split (List.range 100) 42).1 ++
        (train_test_split (List.range 100) 42).2).Perm (List.range 100) ∧
      (train_test_split (List.range 100) 42).1.Disjoint
        (train_test_split (List.range 100) 42).2 ∧
      (train_test_split (List.range 100) 42).2.length = (100 + 3) / 4 ∧
      (train_test_split (List.range 100) 42).1.length +
          (train_test_split (List.range 100) 42).2.length = 100 ∧
      100 ≤ 4 * (train_test_split (List.range 100) 42).2.length ∧
      4 * (train_test_split (List.range 100) 42).2.length < 100 + 4 ∧
      train_test_split (List.range 100) 42 = train_test_split (List.range 100) 42) ∧
    (train_test_split (List.range 100) 42).1.length = 75 ∧
    (train_test_split (List.range 100) 42).2.length = 25 := by
  refine ⟨List.nodup_range 100, ?_, by decide, by decide⟩
  simpa using train_test_split_spec (List.range 100) (List.nodup_range 100)

/-! ### Model registry (notebook registration cells)

The notebook registers `model_name` (guarded by `try/except`, printing
"Registered model already exists" if the name is taken) and then calls
`client.create_model_version(name=model_name, ...)`. -/

abbrev ModelName := String

/-- The model name used by the notebook. -/
def model_name : ModelName := "california-housing-model"

/-- The MLflow model registry state: registered names, each with its list of
version numbers (newest first).
Modelled from the spec: the registry is external to this repository; the spec
describes it as "a named, versioned pointer to a run's artifact" whose
"version numbers increase monotonically per model name". -/
structure Registry where
  models : List (ModelName × List Nat)
deriving DecidableEq, Repr

/-- Versions currently recorded under a name (first matching entry). -/
def findVersions (l : List (ModelName × List Nat)) (name : ModelName) :
    Option (List Nat) :=
  (l.find? (fun p => p.1 == name)).map Prod.snd

def Registry.versionsOf (r : Registry) (name : ModelName) : List Nat :=
  (findVersions r.models name).getD []

def Registry.hasModel (r : Registry) (name : ModelName) : Bool :=
  (findVersions r.models name).isSome

/-- Modelled from the spec: `MlflowClient.create_registered_model` raises if
the name is already registered and otherwise records the new empty model. -/
def Registry.create_registered_model (r : Registry) (name : ModelName) :
    Except String Registry :=
  if r.hasModel name then .error "RESOURCE_ALREADY_EXISTS"
  else .ok { models := (name, []) :: r.models }

/-- The notebook's `try: client.create_registered_model(model_name) except:
print("Registered model already exists")` wrapper: a pre-existing name is
tolerated, logged and ignored, so the wrapper is total. -/
def registerModelName (r : Registry) (name : ModelName) : Registry :=
  match r.create_registered_model name with
  | .ok r' => r'
  | .error _ => r

/-- Replace the version list of the first entries carrying `name`. -/
def updateVersions (l : List (ModelName × List Nat)) (name : ModelName)
    (v : Nat) : List (ModelName × List Nat) :=
  l.map (fun p => if p.1 == name then (p.1, v :: p.2) else p)

/-- Modelled from the spec: `MlflowClient.create_model_version` "always creates
a new version" whose number is strictly above every existing version of the
name.  Returns the updated registry and the fresh version number. -/
def Registry.create_model_version (r : Registry) (name : ModelName) :
    Registry × Nat :=
  let v := (r.versionsOf name).foldr max 0 + 1
  ({ models := updateVersions r.models name v }, v)

/-- The notebook's registration step: idempotent name registration followed by
version creation. -/
def registerAndVersion (r : Registry) (name : ModelName) : Registry × Nat :=
  (registerModelName r name).create_model_version name

theorem le_foldr_max (vs : List Nat) : ∀ w ∈ vs, w ≤ vs.foldr max 0 := by
  induction vs with
  | nil => intro w hw; cases hw
  | cons a t ih =>
      intro w hw
      rcases List.mem_cons.mp hw with h | h
      · subst h; exact Nat.le_max_left _ _
      · exact Nat.le_trans (ih w h) (Nat.le_max_right _ _)

theorem findVersions_updateVersions (l : List (ModelName × List Nat))
    (name : ModelName) (v : Nat) (vs : List Nat)
    (h : findVersions l name = some vs) :
    findVersions (updateVersions l name v) name = some (v :: vs) := by
  induction l with
  | nil => simp [findVersions] at h
  | cons p t ih =>
      by_cases hp : p.1 == name
      · simp [findVersions, updateVersions, List.find?, hp] at h ⊢
        exact h
      · have h' : findVersions t name = some vs := by
          simpa [findVersions, List.find?, hp] using h
        simpa [findVersions, updateVersions, List.find?, hp] using ih h'

theorem findVersions_registerModelName (r : Registry) (name : ModelName) :
    findVersions (registerModelName r name).models name
      = some (r.versionsOf name) := by
  by_cases h : r.hasModel name
  · have hr : registerModelName r name = r := by
      simp [registerModelName, Registry.create_registered_model, h]
    rw [hr]
    unfold Registry.hasModel at h
    cases hf : findVersions r.models name with
    | none => rw [hf] at h; simp at h
    | some vs => simp [Registry.versionsOf, hf]
  · have hr : (registerModelName r name).models = (name, []) :: r.models := by
      simp [registerModelName, Registry.create_registered_model, h]
    unfold Registry.hasModel at h
    have hnone : findVersions r.models name = none := by
      cases hf : findVersions r.models name with
      | none => rfl
      | some vs => rw [hf] at h; simp at h
    rw [hr]
    have hhead : findVersions ((name, []) :: r.models) name = some [] := by
      simp [findVersions, List.find?]
    rw [hhead]
    simp [Registry.versionsOf, hnone]

theorem registerAndVersion_versions (r : Registry) (name : ModelName) :
    (registerAndVersion r name).2 = (r.versionsOf name).foldr max 0 + 1 ∧
    (registerAndVersion r name).1.versionsOf name
      = (registerAndVersion r name).2 :: r.versionsOf name := by
  have hfind := findVersions_registerModelName r name
  have hbase : (registerModelName r name).versionsOf name = r.versionsOf name := by
    simp [Registry.versionsOf, hfind]
  constructor
  · simp [registerAndVersion, Registry.create_model_version, hbase]
  · simp only [registerAndVersion, Registry.create_model_version, hbase]
    simp [Registry.versionsOf,
      findVersions_updateVersions _ _ _ _ hfind, hbase]

/-- C2: registering the same model name twice never raises past the first
call — the wrapped registration is total and leaves the registry unchanged on
the duplicate (the inner call does report "already exists" and is ignored) —
and each invocation creates a version strictly greater than every previously
created version of that name. -/
theorem register_model_idempotent_versions_increase (r : Registry)
    (name : ModelName) :
    (registerAndVersion r name).1.create_registered_model name
        = .error "RESOURCE_ALREADY_EXISTS" ∧
    registerModelName (registerAndVersion r name).1 name
        = (registerAndVersion r name).1 ∧
    (∀ w ∈ r.versionsOf name, w < (registerAndVersion r name).2) ∧
    (∀ w ∈ (registerAndVersion r name).1.versionsOf name,
        w < (registerAndVersion (registerAndVersion r name).1 name).2) ∧
    (registerAndVersion r name).2
        < (registerAndVersion (registerAndVersion r name).1 name).2 := by
  obtain ⟨hv1, hvs1⟩ := registerAndVersion_versions r name
  obtain ⟨hv2, _⟩ := registerAndVersion_versions (registerAndVersion r name).1 name
  have hhas : (registerAndVersion r name).1.hasModel name := by
    simp [Registry.hasModel, Registry.versionsOf] at hvs1 ⊢
    cases hf : findVersions (registerAndVersion r name).1.models name with
    | none => rw [hf] at hvs1; simp at hvs1
    | some vs => simp
  refine ⟨?_, ?_, ?_, ?_, ?_⟩
  · simp [Registry.create_registered_model, hhas]
  · simp [registerModelName, Registry.create_registered_model, hhas]
  · intro w hw
    rw [hv1]
    exact Nat.lt_succ_of_le (le_foldr_max _ w hw)
  · intro w hw
    rw [hv2]
    exact Nat.lt_succ_of_le (le_foldr_max _ w hw)
  · rw [hv2, hvs1]
    have : (registerAndVersion r name).2
        ≤ ((registerAndVersion r name).2 :: r.versionsOf name).foldr max 0 :=
      le_foldr_max _ _ (List.mem_cons_self _ _)
    omega

/-- Witness for C2 at the empty registry and the notebook's model name: the
duplicate registration is tolerated and the two created versions increase. -/
theorem register_model_idempotent_versions_increase_witness :
    (registerAndVersion ⟨[]⟩ model_name).1.create_registered_model model_name
        = .error "RESOURCE_ALREADY_EXISTS" ∧
    registerModelName (registerAndVersion ⟨[]⟩ model_name).1 model_name
        = (registerAndVersion ⟨[]⟩ model_name).1 ∧
    (∀ w ∈ Registry.versionsOf ⟨[]⟩ model_name,
        w < (registerAndVersion ⟨[]⟩ model_name).2) ∧
    (∀ w ∈ (registerAndVersion ⟨[]⟩ model_name).1.versionsOf model_name,
        w < (registerAndVersion (registerAndVersion ⟨[]⟩ model_name).1
              model_name).2) ∧
    (registerAndVersion ⟨[]⟩ model_name).2
        < (registerAndVersion (registerAndVersion ⟨[]⟩ model_name).1
            model_name).2 :=
  register_model_idempotent_versions_increase ⟨[]⟩ model_name

/-! ### Experiment runs and the tracking-server query

The notebook issues two `client.search_runs` queries with `max_results=1`:
one ordered by `attribute.start_time DESC` (latest run) and one ordered by
`` metrics.`AE-at-50th-percentile` ASC `` (best run for the `Minimize`
objective), each followed by `[0]` on the result list. -/

/-- An experiment run as recorded by the tracking server: its start time and
its logged objective metric (`AE-at-50th-percentile`).
Modelled from the spec: the tracking server is external; a run is "produced by
a training job; attributes: parameters logged, metrics logged, artifact
location, start time. Immutable once finalized." -/
structure Run where
  runId : String
  startTime : Int
  metric : Rat
deriving DecidableEq, Repr

/-- The `order_by` keys appearing in the source: `attribute.start_time DESC`,
`` metrics.`AE-at-50th-percentile` ASC `` and its `DESC` counterpart. -/
inductive OrderKey where
  | startTimeDesc
  | metricAsc
  | metricDesc
deriving DecidableEq, Repr

/-- The ordering relation requested from the tracking server by each
`order_by` key. -/
def orderKeyRel : OrderKey → Run → Run → Prop
  | .startTimeDesc => fun a b => b.startTime ≤ a.startTime
  | .metricAsc => fun a b => a.metric ≤ b.metric
  | .metricDesc => fun a b => b.metric ≤ a.metric

instance (k : OrderKey) : DecidableRel (orderKeyRel k) := by
  cases k <;> exact fun a b => inferInstanceAs (Decidable (_ ≤ _))

instance (k : OrderKey) : IsTotal Run (orderKeyRel k) := by
  cases k <;> exact ⟨fun a b => le_total _ _⟩

instance (k : OrderKey) : IsTrans Run (orderKeyRel k) := by
  cases k
  · exact ⟨fun a b c h₁ h₂ => le_trans h₂ h₁⟩
  · exact ⟨fun a b c h₁ h₂ => le_trans h₁ h₂⟩
  · exact ⟨fun a b c h₁ h₂ => le_trans h₂ h₁⟩

/-- Modelled from the spec: `MlflowClient.search_runs(experiment_ids, "",
max_results, order_by)` — the tracking server sorts the experiment's runs by
the requested key and returns at most `max_results` of them. -/
def search_runs (runs : List Run) (key : OrderKey) (maxResults : Nat) :
    List Run :=
  (runs.insertionSort (orderKeyRel key)).take maxResults

theorem search_runs_head (runs : List Run) (key : OrderKey)
    (h : runs ≠ []) :
    ∃ r, search_runs runs key 1 = [r] ∧ r ∈ runs ∧
      ∀ r' ∈ runs, orderKeyRel key r r' := by
  have hperm := List.perm_insertionSort (orderKeyRel key) runs
  have hsorted := List.sorted_insertionSort (orderKeyRel key) runs
  cases hs : runs.insertionSort (orderKeyRel key) with
  | nil =>
      exfalso
      exact h (List.eq_nil_of_length_eq_zero (by
        have := hperm.length_eq
        rw [hs] at this
        simpa using this.symm))
  | cons r t =>
      refine ⟨r, ?_, ?_, ?_⟩
      · simp [search_runs, hs]
      · have : r ∈ runs.insertionSort (orderKeyRel key) := by
          rw [hs]; exact List.mem_cons_self _ _
        exact hperm.mem_iff.mp this
      · intro r' hr'
        have hr'' : r' ∈ r :: t := by
          rw [← hs]
          exact hperm.mem_iff.mpr hr'
        rcases List.mem_cons.mp hr'' with hEq | hmem
        · rw [hEq]
          rcases (inferInstanceAs (IsTotal Run (orderKeyRel key))).total r r
            with h1 | h1 <;> exact h1
        · rw [hs] at hsorted
          exact List.rel_of_sorted_cons hsorted r' hmem

/-- The tuner's objective direction, `objective_type = 'Minimize'` in the
source, determines whether the best run carries the smallest (`ASC` order) or
the largest (`DESC` order) objective metric. -/
inductive Direction where
  | Minimize
  | Maximize
deriving DecidableEq, Repr

/-- The `objective_type` configured in the source. -/
def objective_type : Direction := .Minimize

/-- Order key used to fetch the best run for a direction; the source uses
`` metrics.`AE-at-50th-percentile` ASC `` for its `Minimize` objective.
Modelled from the spec: best run "chosen strictly by the single objective
metric value under the configured direction". -/
def objectiveOrder : Direction → OrderKey
  | .Minimize => .metricAsc
  | .Maximize => .metricDesc

/-- Best-run selection: the single result of the tracking query ordered by the
objective metric in the direction's order. -/
def bestRun (runs : List Run) (d : Direction) : Option Run :=
  (search_runs runs (objectiveOrder d) 1).head?

/-- C3: over any set of completed runs, best-run selection with direction
`Minimize` returns a run whose objective metric is smallest among them, and
with direction `Maximize` one whose objective metric is largest. -/
theorem bestRun_extremal (runs : List Run) (d : Direction) (h : runs ≠ []) :
    ∃ r, bestRun runs d = some r ∧ r ∈ runs ∧
      (d = .Minimize → ∀ r' ∈ runs, r.metric ≤ r'.metric) ∧
      (d = .Maximize → ∀ r' ∈ runs, r'.metric ≤ r.metric) := by
  obtain ⟨r, hr, hmem, hrel⟩ := search_runs_head runs (objectiveOrder d) h
  refine ⟨r, by simp [bestRun, hr], hmem, ?_, ?_⟩
  · rintro rfl r' hr'
    exact hrel r' hr'
  · rintro rfl r' hr'
    exact hrel r' hr'

/-- Witness for C3 on a concrete experiment: among three completed runs with
metrics 5, 3 and 7, minimization selects the run with metric 3. -/
theorem bestRun_extremal_witness :
    ([⟨"r1", 10, 5⟩, ⟨"r2", 20, 3⟩, ⟨"r3", 30, 7⟩] : List Run) ≠ [] ∧
    (∃ r, bestRun [⟨"r1", 10, 5⟩, ⟨"r2", 20, 3⟩, ⟨"r3", 30, 7⟩]
          .Minimize = some r ∧
        r ∈ ([⟨"r1", 10, 5⟩, ⟨"r2", 20, 3⟩, ⟨"r3", 30, 7⟩] : List Run) ∧
        (Direction.Minimize = .Minimize →
          ∀ r' ∈ ([⟨"r1", 10, 5⟩, ⟨"r2", 20, 3⟩, ⟨"r3", 30, 7⟩] : List Run),
            r.metric ≤ r'.metric) ∧
        (Direction.Minimize = .Maximize →
          ∀ r' ∈ ([⟨"r1", 10, 5⟩, ⟨"r2", 20, 3⟩, ⟨"r3", 30, 7⟩] : List Run),
            r'.metric ≤ r.metric)) ∧
    bestRun [⟨"r1", 10, 5⟩, ⟨"r2", 20, 3⟩, ⟨"r3", 30, 7⟩] .Minimize
      = some ⟨"r2", 20, 3⟩ :=
  ⟨by decide,
   bestRun_extremal [⟨"r1", 10, 5⟩, ⟨"r2", 20, 3⟩, ⟨"r3", 30, 7⟩]
     .Minimize (by decide),
   by decide⟩

/-! ### Run selection (notebook `search_runs(...)[0]` cells) -/

/-- The notebook's run-selection step: a `search_runs` query with
`max_results=1` under the configured sort key, immediately indexed with `[0]`.
On an empty result the Python indexing raises `IndexError`, aborting the
workflow; no default run is substituted. -/
def select_run (runs : List Run) (key : OrderKey) : Except String Run :=
  match search_runs runs key 1 with
  | [] => .error "IndexError: list index out of range"
  | r :: _ => .ok r

/-- C5: the run-selection query asks the tracking server for exactly one run —
under `attribute.start_time DESC` the most recent by start time, under the
metric orderings the best by the objective metric in the configured
direction — and if the experiment holds no run the selection fails fatally
instead of returning a default. -/
theorem select_run_spec (runs : List Run) (key : OrderKey) :
    (runs = [] →
      select_run runs key = .error "IndexError: list index out of range") ∧
    (runs ≠ [] →
      (search_runs runs key 1).length = 1 ∧
      ∃ r, select_run runs key = .ok r ∧ r ∈ runs ∧
        (key = .startTimeDesc → ∀ r' ∈ runs, r'.startTime ≤ r.startTime) ∧
        (key = .metricAsc → ∀ r' ∈ runs, r.metric ≤ r'.metric) ∧
        (key = .metricDesc → ∀ r' ∈ runs, r'.metric ≤ r.metric)) := by
  constructor
  · rintro rfl
    cases key <;> rfl
  · intro h
    obtain ⟨r, hr, hmem, hrel⟩ := search_runs_head runs key h
    refine ⟨by rw [hr]; rfl, r, ?_, hmem, ?_, ?_, ?_⟩
    · simp [select_run, hr]
    · rintro rfl r' hr'; exact hrel r' hr'
    · rintro rfl r' hr'; exact hrel r' hr'
    · rintro rfl r' hr'; exact hrel r' hr'

/-- Witness for C5: on an empty experiment the selection is the fatal
`IndexError`, and on a two-run experiment the `start_time DESC` selection
returns exactly the later-started run. -/
theorem select_run_spec_witness :
    ((([] : List Run) = []) ∧
      select_run [] .startTimeDesc
        = .error "IndexError: list index out of range") ∧
    (([⟨"a", 5, 1⟩, ⟨"b", 9, 2⟩] : List Run) ≠ [] ∧
      (search_runs [⟨"a", 5, 1⟩, ⟨"b", 9, 2⟩] .startTimeDesc 1).length = 1 ∧
      ∃ r, select_run [⟨"a", 5, 1⟩, ⟨"b", 9, 2⟩] .startTimeDesc = .ok r ∧
        r ∈ ([⟨"a", 5, 1⟩, ⟨"b", 9, 2⟩] : List Run) ∧
        (OrderKey.startTimeDesc = .startTimeDesc →
          ∀ r' ∈ ([⟨"a", 5, 1⟩, ⟨"b", 9, 2⟩] : List Run),
            r'.startTime ≤ r.startTime) ∧
        (OrderKey.startTimeDesc = .metricAsc →
          ∀ r' ∈ ([⟨"a", 5, 1⟩, ⟨"b", 9, 2⟩] : List Run),
            r.metric ≤ r'.metric) ∧
        (OrderKey.startTimeDesc = .metricDesc →
          ∀ r' ∈ ([⟨"a", 5, 1⟩, ⟨"b", 9, 2⟩] : List Run),
            r'.metric ≤ r.metric)) :=
  ⟨⟨rfl, (select_run_spec [] .startTimeDesc).1 rfl⟩,
   ⟨by decide,
    (select_run_spec [⟨"a", 5, 1⟩, ⟨"b", 9, 2⟩] .startTimeDesc).2 (by decide)⟩⟩

/-! ### Hyperparameter search (notebook `HyperparameterTuner` cell) -/

/-- The caps passed to `HyperparameterTuner` in the source:
`max_jobs = 10`, `max_parallel_jobs = 3`. -/
structure TunerConfig where
  max_jobs : Nat
  max_parallel_jobs : Nat
deriving DecidableEq, Repr

/-- The configuration literally constructed by the notebook. -/
def tunerConfig : TunerConfig := { max_jobs := 10, max_parallel_jobs := 3 }

/-- Progress state of one tuning job: how many training jobs have been
submitted in total and how many are currently executing. -/
structure TunerState where
  submitted : Nat
  running : Nat
deriving DecidableEq, Repr

/-- Modelled from the spec: the tuner "submits jobs under the parallelism cap
until the total cap is reached, then blocks until all finish".  A `submit`
step is enabled only below both caps; a `finish` step retires one executing
job (completed, failed or stopped alike). -/
inductive TunerStep (cfg : TunerConfig) : TunerState → TunerState → Prop
  | submit {s : TunerState} (hTotal : s.submitted < cfg.max_jobs)
      (hPar : s.running < cfg.max_parallel_jobs) :
      TunerStep cfg s ⟨s.submitted + 1, s.running + 1⟩
  | finish {s : TunerState} (hRun : 0 < s.running) :
      TunerStep cfg s ⟨s.submitted, s.running - 1⟩

/-- States the tuning job can reach from its start (no job submitted yet). -/
inductive TunerReachable (cfg : TunerConfig) : TunerState → Prop
  | init : TunerReachable cfg ⟨0, 0⟩
  | step {s s' : TunerState} : TunerReachable cfg s → TunerStep cfg s s' →
      TunerReachable cfg s'

theorem tunerReachable_invariant {cfg : TunerConfig} {s : TunerState}
    (h : TunerReachable cfg s) :
    s.running ≤ cfg.max_parallel_jobs ∧ s.submitted ≤ cfg.max_jobs := by
  induction h with
  | init => exact ⟨Nat.zero_le _, Nat.zero_le _⟩
  | step _ hstep ih =>
      cases hstep with
      | submit hTotal hPar => exact ⟨hPar, hTotal⟩
      | finish hRun => exact ⟨Nat.le_trans (Nat.sub_le _ _) ih.1, ih.2⟩

/-- C4: under the notebook's configuration (`max_jobs = 10 ≥
max_parallel_jobs = 3 ≥ 1`), every state the hyperparameter search can reach
has at most `max_parallel_jobs` training jobs executing concurrently and at
most `max_jobs` training jobs submitted in total. -/
theorem tuner_caps_respected (s : TunerState)
    (h : TunerReachable tunerConfig s) :
    s.running ≤ tunerConfig.max_parallel_jobs ∧
    s.submitted ≤ tunerConfig.max_jobs ∧
    tunerConfig.max_jobs = 10 ∧ tunerConfig.max_parallel_jobs = 3 ∧
    1 ≤ tunerConfig.max_parallel_jobs ∧
    tunerConfig.max_parallel_jobs ≤ tunerConfig.max_jobs := by
  obtain ⟨h1, h2⟩ := tunerReachable_invariant h
  exact ⟨h1, h2, rfl, rfl, by decide, by decide⟩

/-- Witness for C4 at a concrete execution: after three submissions and one
completion (a reachable state with two jobs running), both caps hold. -/
theorem tuner_caps_respected_witness :
    TunerReachable tunerConfig ⟨3, 2⟩ ∧
    ((⟨3, 2⟩ : TunerState).running ≤ tunerConfig.max_parallel_jobs ∧
      (⟨3, 2⟩ : TunerState).submitted ≤ tunerConfig.max_jobs ∧
      tunerConfig.max_jobs = 10 ∧ tunerConfig.max_parallel_jobs = 3 ∧
      1 ≤ tunerConfig.max_parallel_jobs ∧
      tunerConfig.max_parallel_jobs ≤ tunerConfig.max_jobs) := by
  have hreach : TunerReachable tunerConfig ⟨3, 2⟩ := by
    have h0 : TunerReachable tunerConfig ⟨0, 0⟩ := .init
    have h1 : TunerReachable tunerConfig ⟨1, 1⟩ :=
      .step h0 (.submit (by decide) (by decide))
    have h2 : TunerReachable tunerConfig ⟨2, 2⟩ :=
      .step h1 (.submit (by decide) (by decide))
    have h3 : TunerReachable tunerConfig ⟨3, 3⟩ :=
      .step h2 (.submit (by decide) (by decide))
    exact .step h3 (.finish (by decide))
  exact ⟨hreach, tuner_caps_respected ⟨3, 2⟩ hreach⟩

/-! ### Credential retrieval (notebook `retrieve_credentials` cell) -/

/-- A structured secret: the parsed JSON object stored under the secret name,
as a list of field/value pairs. -/
abbrev SecretObject := List (String × String)

/-- The Secrets Manager contents visible to the workflow.
Modelled from the spec: the secrets service is external; it maps a secret
identifier to a structured secret. -/
structure SecretsManager where
  secrets : List (String × SecretObject)
deriving DecidableEq, Repr

/-- Modelled from the spec: `client.get_secret_value(SecretId=secret_name)` —
returns the stored structured secret, or raises if the secret is missing. -/
def get_secret_value (sm : SecretsManager) (secretId : String) :
    Except String SecretObject :=
  match sm.secrets.find? (fun p => p.1 == secretId) with
  | some p => .ok p.2
  | none => .error "ResourceNotFoundException"

/-- Field access `json.loads(secret['SecretString'])[key]`: raises `KeyError`
if the parsed structure lacks the field. -/
def secretField (obj : SecretObject) (key : String) : Except String String :=
  match obj.find? (fun p => p.1 == key) with
  | some p => .ok p.2
  | none => .error ("KeyError: " ++ key)

/-- The notebook's `retrieve_credentials(region_name, secret_name)`: fetch the
secret in the given region and extract exactly the username/password pair.
Any failure propagates — the function has no fallback branch. -/
def retrieve_credentials (sm : SecretsManager) (region_name : String)
    (secret_name : String) : Except String (String × String) :=
  match get_secret_value sm secret_name with
  | .error e => .error e
  | .ok secret =>
      match secretField secret "username" with
      | .error e => .error e
      | .ok username =>
          match secretField secret "password" with
          | .error e => .error e
          | .ok password => .ok (username, password)

/-- The ambient process environment, as variable/value pairs (latest first). -/
abbrev Env := List (String × String)

def setEnv (env : Env) (key value : String) : Env := (key, value) :: env

def getEnv (env : Env) (key : String) : Option String :=
  (env.find? (fun p => p.1 == key)).map Prod.snd

/-- The notebook cell following `retrieve_credentials`: on success the
username and password are written to `MLFLOW_TRACKING_USERNAME` and
`MLFLOW_TRACKING_PASSWORD`; on failure the uncaught exception aborts the cell
before either assignment, so no fallback credentials are set. -/
def set_tracking_credentials (env : Env) (sm : SecretsManager)
    (region_name : String) (secret_name : String) : Except String Env :=
  match retrieve_credentials sm region_name secret_name with
  | .error e => .error e
  | .ok (username, password) =>
      .ok (setEnv (setEnv env "MLFLOW_TRACKING_USERNAME" username)
            "MLFLOW_TRACKING_PASSWORD" password)

/-- C6: for every region and secret identifier, when the secret exists and its
structure carries both a username and a password field, the credential step
sets exactly that pair as the ambient tracking credentials; when the secret is
missing, or the username or password field is absent, the step aborts with the
fatal error and no environment update is produced. -/
theorem retrieve_credentials_spec (env : Env) (sm : SecretsManager)
    (region_name : String) (secret_name : String) :
    (∀ obj username password,
      get_secret_value sm secret_name = .ok obj →
      secretField obj "username" = .ok username →
      secretField obj "password" = .ok password →
      retrieve_credentials sm region_name secret_name = .ok (username, password) ∧
      ∃ env', set_tracking_credentials env sm region_name secret_name = .ok env' ∧
        getEnv env' "MLFLOW_TRACKING_USERNAME" = some username ∧
        getEnv env' "MLFLOW_TRACKING_PASSWORD" = some password) ∧
    (∀ e, get_secret_value sm secret_name = .error e →
      set_tracking_credentials env sm region_name secret_name = .error e) ∧
    (∀ obj e, get_secret_value sm secret_name = .ok obj →
      secretField obj "username" = .error e →
      set_tracking_credentials env sm region_name secret_name = .error e) ∧
    (∀ obj username e, get_secret_value sm secret_name = .ok obj →
      secretField obj "username" = .ok username →
      secretField obj "password" = .error e →
      set_tracking_credentials env sm region_name secret_name = .error e) := by
  refine ⟨?_, ?_, ?_, ?_⟩
  · intro obj username password hsec huser hpass
    have hret : retrieve_credentials sm region_name secret_name
        = .ok (username, password) := by
      simp [retrieve_credentials, hsec, huser, hpass]
    refine ⟨hret, ?_⟩
    refine ⟨setEnv (setEnv env "MLFLOW_TRACKING_USERNAME" username)
        "MLFLOW_TRACKING_PASSWORD" password,
      by simp [set_tracking_credentials, hret], ?_, ?_⟩
    · simp [getEnv, setEnv, List.find?]
    · simp [getEnv, setEnv, List.find?]
  · intro e hsec
    simp [set_tracking_credentials, retrieve_credentials, hsec]
  · intro obj e hsec huser
    simp [set_tracking_credentials, retrieve_credentials, hsec, huser]
  · intro obj username e hsec huser hpass
    simp [set_tracking_credentials, retrieve_credentials, hsec, huser, hpass]

/-- Witness for C6 at a concrete store: the secret `mlflow-server-credentials`
holding both fields yields exactly that username/password pair in the
environment. -/
theorem retrieve_credentials_spec_witness :
    (get_secret_value
        ⟨[("mlflow-server-credentials",
            [("username", "mlflow-user"), ("password", "pw123")])]⟩
        "mlflow-server-credentials"
      = .ok [("username", "mlflow-user"), ("password", "pw123")] ∧
     secretField [("username", "mlflow-user"), ("password", "pw123")] "username"
      = .ok "mlflow-user" ∧
     secretField [("username", "mlflow-user"), ("password", "pw123")] "password"
      = .ok "pw123") ∧
    (retrieve_credentials
        ⟨[("mlflow-server-credentials",
            [("username", "mlflow-user"), ("password", "pw123")])]⟩
        "us-west-2" "mlflow-server-credentials" = .ok ("mlflow-user", "pw123") ∧
     ∃ env', set_tracking_credentials []
          ⟨[("mlflow-server-credentials",
              [("username", "mlflow-user"), ("password", "pw123")])]⟩
          "us-west-2" "mlflow-server-credentials" = .ok env' ∧
        getEnv env' "MLFLOW_TRACKING_USERNAME" = some "mlflow-user" ∧
        getEnv env' "MLFLOW_TRACKING_PASSWORD" = some "pw123") :=
  ⟨⟨rfl, rfl, rfl⟩,
   (retrieve_credentials_spec []
      ⟨[("mlflow-server-credentials",
          [("username", "mlflow-user"), ("password", "pw123")])]⟩
      "us-west-2" "mlflow-server-credentials").1
     [("username", "mlflow-user"), ("password", "pw123")]
     "mlflow-user" "pw123" rfl rfl rfl⟩

/-! ### Metric extraction (notebook `metric_definitions` cells)

The source configures
`metric_definitions = [{'Name': 'median-AE', 'Regex': "AE-at-50th-percentile: ([0-9.]+).*$"}]`.
The pattern is applied by the training platform as a regular-expression search
over each log line: it matches at the leftmost position where the literal
label is followed by at least one character of the class `[0-9.]`, the greedy
group captures the maximal run of such characters, and `.*$` accepts the rest
of the line. -/

/-- The literal part of the configured regular expression. -/
def metric_label : String := "AE-at-50th-percentile: "

/-- The character class `[0-9.]` of the capture group. -/
def isNumChar (c : Char) : Bool := c.isDigit || c == '.'

/-- Whether the remainder of the pattern (`label`, group, `.*$`) matches at
the head of `l`: the literal label must be a prefix and the greedy group
`([0-9.]+)` must capture at least one character; `.*$` accepts any tail. -/
def regexMatchesAt (l : List Char) : Bool :=
  metric_label.data.isPrefixOf l &&
    !((l.drop metric_label.data.length).takeWhile isNumChar).isEmpty

/-- Leftmost-match scan of the configured pattern over a log line, returning
the capture group's characters. -/
def scanForMetric : List Char → Option (List Char)
  | [] => none
  | c :: cs =>
      if regexMatchesAt (c :: cs) then
        some (((c :: cs).drop metric_label.data.length).takeWhile isNumChar)
      else scanForMetric cs

/-- The metric value the training platform extracts from one log line with the
configured regular expression `AE-at-50th-percentile: ([0-9.]+).*$`, if the
pattern matches the line. -/
def extract_metric (line : String) : Option String :=
  (scanForMetric line.data).map (fun l => ⟨l⟩)

/-- The spec's fixed metric-line format, written from the spec's words for
comparison with the regular expression's behaviour: the line is exactly the
metric label followed by a non-empty numeric token. -/
def specFormatLine (line : String) : Bool :=
  metric_label.data.isPrefixOf line.data &&
    (let rest := line.data.drop metric_label.data.length
     !rest.isEmpty && rest.all isNumChar)

theorem takeWhile_all_eq {p : α → Bool} :
    ∀ {l : List α}, l.all p → l.takeWhile p = l := by
  intro l
  induction l with
  | nil => intro _; rfl
  | cons a t ih =>
      intro h
      have h' : p a = true ∧ t.all p = true := by simpa using h
      simp [List.takeWhile_cons, h'.1, ih h'.2]

theorem scanForMetric_eq_of_match (l : List Char) (hl : l ≠ [])
    (hm : regexMatchesAt l = true) :
    scanForMetric l
      = some ((l.drop metric_label.data.length).takeWhile isNumChar) := by
  cases l with
  | nil => exact absurd rfl hl
  | cons c cs => rw [scanForMetric, if_pos hm]

theorem scanForMetric_sound :
    ∀ (l cap : List Char), scanForMetric l = some cap →
      cap ≠ [] ∧ cap.all isNumChar ∧
      ∃ i, (metric_label.data ++ cap).isPrefixOf (l.drop i) := by
  intro l
  induction l with
  | nil => intro cap h; simp [scanForMetric] at h
  | cons c cs ih =>
      intro cap h
      rw [scanForMetric] at h
      by_cases hm : regexMatchesAt (c :: cs)
      · rw [if_pos hm] at h
        rw [regexMatchesAt] at hm
        obtain ⟨hpre, hnum⟩ := Bool.and_eq_true_iff.mp hm
        have hcap : ((c :: cs).drop metric_label.data.length).takeWhile isNumChar
            = cap := by
          simpa using h
        have hne : cap ≠ [] := by
          intro hnil
          rw [hcap, hnil] at hnum
          simp at hnum
        have hall : cap.all isNumChar := by
          rw [← hcap]
          exact List.all_takeWhile
        refine ⟨hne, hall, 0, ?_⟩
        rw [List.drop_zero, List.isPrefixOf_iff_prefix]
        have hp : metric_label.data <+: c :: cs :=
          List.isPrefixOf_iff_prefix.mp hpre
        obtain ⟨tail, htail⟩ := hp
        have hdrop : (c :: cs).drop metric_label.data.length = tail := by
          rw [← htail, List.drop_left]
        rw [← htail, ← hcap, hdrop]
        exact ⟨tail.dropWhile isNumChar, by rw [List.append_assoc,
          List.takeWhile_append_dropWhile]⟩
      · rw [if_neg hm] at h
        obtain ⟨hne, hall, i, hi⟩ := ih cap h
        exact ⟨hne, hall, i + 1, by simpa using hi⟩

/-- C7 (amended): a log line consisting of the metric label followed by a
numeric token is matched by the configured regular expression and the capture
group yields exactly that token; conversely a line only produces a metric
value if it contains, at some position, the label immediately followed by the
non-empty numeric capture. -/
theorem extract_metric_spec :
    (∀ num : String, num ≠ "" → num.data.all isNumChar →
      extract_metric (metric_label ++ num) = some num) ∧
    (∀ line v, extract_metric line = some v →
      v ≠ "" ∧ v.data.all isNumChar ∧
      ∃ i, (metric_label.data ++ v.data).isPrefixOf (line.data.drop i)) := by
  constructor
  · intro num hne hall
    have hdata : (metric_label ++ num).data = metric_label.data ++ num.data :=
      String.data_append _ _
    have hnum : num.data ≠ [] := by
      intro h
      exact hne (String.ext (h.trans rfl))
    have hm : regexMatchesAt (metric_label.data ++ num.data) = true := by
      have hpre : metric_label.data.isPrefixOf
          (metric_label.data ++ num.data) = true := by
        rw [List.isPrefixOf_iff_prefix]
        exact ⟨num.data, rfl⟩
      rw [regexMatchesAt, hpre, List.drop_left, takeWhile_all_eq hall]
      cases hd : num.data with
      | nil => exact absurd hd hnum
      | cons d ds => rfl
    have hlne : metric_label.data ++ num.data ≠ [] := by
      intro h
      have hlen := congrArg List.length h
      rw [List.length_append] at hlen
      have hlab : metric_label.data.length = 23 := rfl
      rw [hlab] at hlen
      simp at hlen
    rw [extract_metric, hdata,
      scanForMetric_eq_of_match _ hlne hm, List.drop_left,
      takeWhile_all_eq hall]
    rfl
  · intro line v h
    rw [extract_metric] at h
    cases hscan : scanForMetric line.data with
    | none => rw [hscan] at h; simp at h
    | some cap =>
        rw [hscan] at h
        have hv : v = (⟨cap⟩ : String) := by
          simpa using h.symm
        obtain ⟨hne, hall, i, hi⟩ := scanForMetric_sound line.data cap hscan
        refine ⟨?_, ?_, i, ?_⟩
        · rw [hv]
          intro hcon
          exact hne (congrArg String.data hcon)
        · rw [hv]; exact hall
        · rw [hv]; exact hi

/-- Witness for C7 at the concrete log line `AE-at-50th-percentile: 0.53`:
the pattern matches and captures exactly `0.53`. -/
theorem extract_metric_spec_witness :
    (("0.53" : String) ≠ "" ∧ "0.53".data.all isNumChar) ∧
    extract_metric (metric_label ++ "0.53") = some "0.53" :=
  ⟨⟨by decide, by decide⟩, extract_metric_spec.1 "0.53" (by decide) (by decide)⟩

/-- Counterexample for C7 as stated: the log line
`AE-at-50th-percentile: 1x` is not of the fixed format
`"<metric-label>: <number>"` (its tail `1x` is not a number), yet the
configured regular expression matches it — `.*$` absorbs the trailing `x` —
and produces the metric value `1`. -/
theorem extract_metric_claim_counterexample :
    specFormatLine "AE-at-50th-percentile: 1x" = false ∧
    extract_metric "AE-at-50th-percentile: 1x" = some "1" := by
  constructor <;> rfl

/-! ### Endpoint deployment, prediction and teardown

The notebook deploys with `mlflow.sagemaker.deploy(mode='create',
app_name=endpoint_name, ...)`, invokes `runtime.invoke_endpoint(
EndpointName=endpoint_name, ...)`, and tears down with
`mlflow.sagemaker.delete(app_name=endpoint_name, region_name=region)`. -/

/-- The endpoint name used by the notebook. -/
def endpoint_name : String := "california-housing"

/-- Modelled from the spec: `mlflow.sagemaker.deploy` in `'create'` mode —
fails if an endpoint with that name already exists, otherwise creates it.
The state is the set of endpoint names live in the region. -/
def deploy (endpoints : List String) (app_name : String) :
    Except String (List String) :=
  if app_name ∈ endpoints then .error "endpoint already exists"
  else .ok (app_name :: endpoints)

/-- Modelled from the spec: `mlflow.sagemaker.delete(app_name, ...)` —
explicit delete-by-name teardown. -/
def delete (endpoints : List String) (app_name : String) : List String :=
  endpoints.erase app_name

/-- Modelled from the spec: `runtime.invoke_endpoint(EndpointName=...)` —
serves a prediction if the named endpoint exists, and fails because the
endpoint is absent otherwise. -/
def invoke_endpoint (endpoints : List String) (app_name : String) :
    Except String String :=
  if app_name ∈ endpoints then .ok "prediction"
  else .error "ValidationError: endpoint not found"

/-- C8: deploy followed by delete of the same endpoint name is a round trip —
from any state not already holding the name, the deploy succeeds, prediction
against the name then succeeds, the delete restores the original state, and a
prediction request against that name afterwards fails because the endpoint is
absent. -/
theorem deploy_delete_round_trip (endpoints : List String) (app_name : String)
    (h : app_name ∉ endpoints) :
    deploy endpoints app_name = .ok (app_name :: endpoints) ∧
    invoke_endpoint (app_name :: endpoints) app_name = .ok "prediction" ∧
    delete (app_name :: endpoints) app_name = endpoints ∧
    invoke_endpoint (delete (app_name :: endpoints) app_name) app_name
      = .error "ValidationError: endpoint not found" := by
  have hdel : delete (app_name :: endpoints) app_name = endpoints := by
    simp [delete, List.erase_cons_head]
  refine ⟨?_, ?_, hdel, ?_⟩
  · simp [deploy, h]
  · simp [invoke_endpoint]
  · rw [hdel]
    simp [invoke_endpoint, h]

/-- Witness for C8 at the notebook's endpoint name on an empty region. -/
theorem deploy_delete_round_trip_witness :
    endpoint_name ∉ ([] : List String) ∧
    (deploy [] endpoint_name = .ok [endpoint_name] ∧
      invoke_endpoint [endpoint_name] endpoint_name = .ok "prediction" ∧
      delete [endpoint_name] endpoint_name = [] ∧
      invoke_endpoint (delete [endpoint_name] endpoint_name) endpoint_name
        = .error "ValidationError: endpoint not found") :=
  ⟨by simp, deploy_delete_round_trip [] endpoint_name (by simp)⟩

/-! ### The CDK stack (`sagemaker-notebook-instance.ts`) -/

/-- One IAM policy statement, as constructed by `new iam.PolicyStatement`. -/
structure PolicyStatement where
  effect : String
  resources : List String
  actions : List String
deriving DecidableEq, Repr

/-- The execution role: service principal, attached managed policies and
inline policy statements. -/
structure Role where
  roleId : String
  assumedBy : String
  managedPolicies : List String
  inlineStatements : List PolicyStatement
deriving DecidableEq, Repr

/-- The notebook-instance resource, as constructed by
`new sagemaker.CfnNotebookInstance`. -/
structure NotebookInstance where
  roleRef : String
  instanceType : String
  volumeSizeInGb : Nat
  notebookInstanceName : String
  defaultCodeRepository : String
  subnetId : String
  securityGroupIds : List String
deriving DecidableEq, Repr

/-- The pieces of the supplied VPC the stack reads: its public subnets and its
default security group. -/
structure Vpc where
  publicSubnetIds : List String
  vpcDefaultSecurityGroup : String
deriving DecidableEq, Repr

/-- The resources a synthesized stack declares. -/
structure Stack where
  roles : List Role
  notebooks : List NotebookInstance
deriving DecidableEq, Repr

/-- The `SageMakerNotebookInstance` stack constructor, embedded from
`src/cdk/singleAccount/lib/sagemaker-notebook-instance.ts`: one execution role
(SageMaker service principal; `AmazonSageMakerFullAccess` and
`AmazonEC2ContainerRegistryFullAccess` managed policies; one inline `s3Buckets`
policy allowing the five S3 actions on every resource) and one notebook
instance attached to the role, the first public subnet of the supplied VPC and
the VPC's default security group. -/
def sageMakerNotebookInstance (vpc : Vpc) : Stack :=
  let sagemakerExecutionRole : Role := {
    roleId := "sagemaker-execution-role"
    assumedBy := "sagemaker.amazonaws.com"
    managedPolicies :=
      ["AmazonSageMakerFullAccess", "AmazonEC2ContainerRegistryFullAccess"]
    inlineStatements := [{
      effect := "Allow"
      resources := ["*"]
      actions := ["s3:ListBucket", "s3:GetObject", "s3:PutObject",
        "s3:DeleteObject", "s3:PutObjectTagging"] }] }
  { roles := [sagemakerExecutionRole]
    notebooks := [{
      roleRef := sagemakerExecutionRole.roleId
      instanceType := "ml.t3.large"
      volumeSizeInGb := 40
      notebookInstanceName := "MLFlow-SageMaker-PrivateLink"
      defaultCodeRepository :=
        "https://github.com/aws-samples/amazon-sagemaker-mlflow-fargate"
      subnetId := vpc.publicSubnetIds.headD ""
      securityGroupIds := [vpc.vpcDefaultSecurityGroup] }] }

/-- C9: for every VPC with at least one public subnet, the stack declares
exactly one notebook instance and one execution role; the role's grants are
exactly the five S3 object actions (list/read/write/delete/tag) in one inline
allow-statement, container-registry push access via
`AmazonEC2ContainerRegistryFullAccess`, and the broad
`AmazonSageMakerFullAccess` managed policy; and the instance references that
role, the VPC's first public subnet and its default security group. -/
theorem sageMakerNotebookInstance_spec (vpc : Vpc) (s : String)
    (rest : List String) (h : vpc.publicSubnetIds = s :: rest) :
    ∃ r nb, (sageMakerNotebookInstance vpc).roles = [r] ∧
      (sageMakerNotebookInstance vpc).notebooks = [nb] ∧
      r.assumedBy = "sagemaker.amazonaws.com" ∧
      r.managedPolicies
        = ["AmazonSageMakerFullAccess", "AmazonEC2ContainerRegistryFullAccess"] ∧
      r.inlineStatements = [⟨"Allow", ["*"],
        ["s3:ListBucket", "s3:GetObject", "s3:PutObject",
          "s3:DeleteObject", "s3:PutObjectTagging"]⟩] ∧
      nb.roleRef = r.roleId ∧
      nb.subnetId = s ∧
      nb.securityGroupIds = [vpc.vpcDefaultSecurityGroup] := by
  refine ⟨_, _, rfl, rfl, rfl, rfl, rfl, rfl, ?_, rfl⟩
  simp [sageMakerNotebookInstance, h]

/-- Witness for C9 at a concrete VPC with one public subnet. -/
theorem sageMakerNotebookInstance_spec_witness :
    (Vpc.mk ["subnet-0"] "sg-default").publicSubnetIds = "subnet-0" :: [] ∧
    ∃ r nb, (sageMakerNotebookInstance ⟨["subnet-0"], "sg-default"⟩).roles = [r] ∧
      (sageMakerNotebookInstance ⟨["subnet-0"], "sg-default"⟩).notebooks = [nb] ∧
      r.assumedBy = "sagemaker.amazonaws.com" ∧
      r.managedPolicies
        = ["AmazonSageMakerFullAccess", "AmazonEC2ContainerRegistryFullAccess"] ∧
      r.inlineStatements = [⟨"Allow", ["*"],
        ["s3:ListBucket", "s3:GetObject", "s3:PutObject",
          "s3:DeleteObject", "s3:PutObjectTagging"]⟩] ∧
      nb.roleRef = r.roleId ∧
      nb.subnetId = "subnet-0" ∧
      nb.securityGroupIds
        = [(Vpc.mk ["subnet-0"] "sg-default").vpcDefaultSecurityGroup] :=
  ⟨rfl, sageMakerNotebookInstance_spec ⟨["subnet-0"], "sg-default"⟩
    "subnet-0" [] rfl⟩

/-! ### Feature columns used for training and prediction -/

/-- Modelled from the spec: the column names of the dataset fetched by
`fetch_california_housing()` (external to the repository), in dataset order —
the six predictive features used by the notebook plus the two location
columns the notebook drops before prediction. -/
def california_feature_names : List String :=
  ["MedInc", "HouseAge", "AveRooms", "AveBedrms", "Population", "AveOccup",
   "Latitude", "Longitude"]

/-- Columns of the persisted train/test tables: the dataset features plus the
`target` column appended by `trainX['target'] = y_train`. -/
def dataset_columns : List String := california_feature_names ++ ["target"]

/-- The `features` hyperparameter string passed to both `SKLearn` estimators
in the source. -/
def features_hyperparameter : String :=
  "MedInc HouseAge AveRooms AveBedrms Population AveOccup"

/-- Split a space-separated string into its tokens.
Modelled from the spec: the training script consuming the `features`
hyperparameter is external to the repository; the spec describes the
hyperparameter as the feature-column selection, a space-separated list of
column names. -/
def splitAux : List Char → List Char → List (List Char)
  | [], acc => [acc.reverse]
  | c :: cs, acc =>
      if c == ' ' then acc.reverse :: splitAux cs []
      else splitAux cs (c :: acc)

def splitWords (s : String) : List String :=
  (splitAux s.data []).map (fun l => ⟨l⟩)

/-- Columns of the local-prediction payload:
`testX.drop(['Latitude','Longitude','target'], axis=1)`. -/
def local_prediction_columns : List String :=
  dataset_columns.filter
    (fun c => !(["Latitude", "Longitude", "target"].contains c))

/-- Columns of each deployed-endpoint request payload:
`data.drop(['Latitude','Longitude','target'], axis=1)` over the persisted
`california_test.csv`, whose columns are `dataset_columns`. -/
def endpoint_prediction_columns : List String :=
  dataset_columns.filter
    (fun c => !(["Latitude", "Longitude", "target"].contains c))

/-- C10: both prediction payloads carry exactly the six feature columns named
in the training `features` hyperparameter — Latitude, Longitude and the
target column are always dropped — so training feature selection and
prediction payload columns agree. -/
theorem prediction_columns_match_features :
    local_prediction_columns = splitWords features_hyperparameter ∧
    endpoint_prediction_columns = splitWords features_hyperparameter ∧
    splitWords features_hyperparameter
      = ["MedInc", "HouseAge", "AveRooms", "AveBedrms", "Population",
         "AveOccup"] ∧
    local_prediction_columns.length = 6 := by
  refine ⟨?_, ?_, ?_, ?_⟩ <;> rfl

end MlflowSagemaker
